import Mathlib

/-!
Verification of the batching data loader in
`combined_model/neuraltalk2_pytorch/dataloader.py` of the repository
"Diverse and Specific Image Captioning" (Lindh et al., 2018).

The Python code is embedded shallowly:
  * the mutable per-split iteration state (`split_ix[split]`,
    `iterators[split]`, the prefetch process) becomes an explicit state
    record that every operation threads;
  * `random.randint` and `random.shuffle` become oracle parameters
    (`randint` folds a raw oracle draw into the requested interval,
    `shuf` is an arbitrary list transformer assumed to permute);
  * the h5/numpy tables become lists of lists of token ids;
  * Python exceptions (the `assert` in `_get_sequence`) become
    `Except String`.
-/

namespace DataLoaderModel

/-- The three dataset splits managed by the loader. -/
inductive Split
  | train
  | val
  | test
deriving DecidableEq, Repr

/-- Iteration state of a single split: the (reorderable) index list
`split_ix[split]` and the scalar cursor `iterators[split]`, exactly the
data read and written by `BlobFetcher._get_next_minibatch_inds`. -/
structure SplitState where
  split_ix : List Nat
  iterator : Nat
deriving DecidableEq, Repr

/-- Model of Python `random.randint a b` (both bounds inclusive): the raw
oracle draw is folded into the interval, so for `a ≤ b` the result is
always inside `[a, b]` and every point of the interval is reachable by
some draw. -/
def randint (a b : Int) (raw : Nat) : Int :=
  a + (raw : Int) % (b - a + 1)

/-- `BlobFetcher._get_next_minibatch_inds` (dataloader.py, lines 286-301):
read the index at the current cursor, advance the cursor, and when the
advanced cursor reaches the end of the list reset it to 0, reshuffle the
list when shuffling is enabled (`shuf` is the `random.shuffle` oracle) and
report a wrap. -/
def getNextMinibatchInds (if_shuffle : Bool) (shuf : List Nat → List Nat)
    (st : SplitState) : (Nat × Bool) × SplitState :=
  let max_index := st.split_ix.length
  let ri := st.iterator
  let ix := st.split_ix.getD ri 0
  let ri_next := ri + 1
  if ri_next ≥ max_index then
    ((ix, true), ⟨if if_shuffle then shuf st.split_ix else st.split_ix, 0⟩)
  else
    ((ix, false), ⟨st.split_ix, ri_next⟩)

/-- `n` consecutive `_get_next_minibatch_inds` calls (as issued by
successive `BlobFetcher.get()` calls), collecting the returned
(index, wrapped) pairs in order. -/
def iterateInds (if_shuffle : Bool) (shuf : List Nat → List Nat) :
    Nat → SplitState → List (Nat × Bool) × SplitState
  | 0, st => ([], st)
  | n + 1, st =>
    let (r, st1) := getNextMinibatchInds if_shuffle shuf st
    let (rs, st2) := iterateInds if_shuffle shuf n st1
    (r :: rs, st2)

/-- The fetch loop of `DataLoader.get_batch` (lines 178-207): up to
`batch_size` successive `Prefetcher.get()` calls, each advancing the split
state; the loop sets `wrapped` and breaks as soon as a fetched example
carries the wrap flag.  Returns the fetched (index, wrap) pairs, the final
split state and the `wrapped` variable. -/
def fetchLoop (if_shuffle : Bool) (shuf : List Nat → List Nat) :
    Nat → SplitState → List (Nat × Bool) × SplitState × Bool
  | 0, st => ([], st, false)
  | n + 1, st =>
    let (r, st1) := getNextMinibatchInds if_shuffle shuf st
    if r.2 then ([r], st1, true)
    else
      let (rs, st2, w) := fetchLoop if_shuffle shuf n st1
      (r :: rs, st2, w)

/-- The loader's per-split mutable state touched by `reset_iterator`:
`split_ix`, `iterators` and whether the split's prefetch process has a
primed `split_loader` (it does not, right after being re-created). -/
structure LoaderIterators where
  split_ix : Split → List Nat
  iterators : Split → Nat
  pf_active : Split → Bool

/-- `DataLoader.reset_iterator` (lines 40-43): delete and re-create the
split's `BlobFetcher` (so its pool is unprimed) and zero that split's
cursor.  The index lists are not touched. -/
def reset_iterator (s : Split) (st : LoaderIterators) : LoaderIterators :=
  { st with
    pf_active := Function.update st.pf_active s false
    iterators := Function.update st.iterators s 0 }

/-- One record of `info['images']`: external id, file path and split label. -/
structure ImageInfo where
  id : Nat
  file_path : String
  split : String
deriving DecidableEq, Repr

/-- The dictionary built by `DataLoader._make_info_dict` (lines 157-163). -/
structure InfoDict where
  ix : Nat
  id : Nat
  file_path : String
deriving DecidableEq, Repr

def _make_info_dict (images : List ImageInfo) (ix : Nat) : InfoDict :=
  { ix := ix
    id := (images.getD ix { id := 0, file_path := "", split := "" }).id
    file_path := (images.getD ix { id := 0, file_path := "", split := "" }).file_path }

/-- The caption label data loaded from the h5 file: the token table
`labels` (one row per caption, `seq_length` columns), and the 1-based
inclusive per-image pointer arrays `label_start_ix` / `label_end_ix`. -/
structure LabelData where
  labels : List (List Nat)
  label_start_ix : List Int
  label_end_ix : List Int
  seq_length : Nat
deriving DecidableEq, Repr

/-- Number of captions available for image `ix`, as computed at
dataloader.py lines 140-142 (`ix2 - ix1 + 1`). -/
def ncapOf (d : LabelData) (ix : Nat) : Int :=
  (d.label_end_ix.getD ix 0 - 1) - (d.label_start_ix.getD ix 0 - 1) + 1

/-- `DataLoader._get_sequence` (lines 138-155).  `raw q` is the oracle
draw behind the `q`-th `random.randint` call of the subsample branch (the
window branch uses `raw 0`).  The Python `assert ncap > 0` becomes an
`Except.error`. -/
def _get_sequence (d : LabelData) (ix : Nat) (seq_per_img : Nat)
    (raw : Nat → Nat) : Except String (List (List Nat)) :=
  let ix1 : Int := d.label_start_ix.getD ix 0 - 1
  let ix2 : Int := d.label_end_ix.getD ix 0 - 1
  let ncap : Int := ix2 - ix1 + 1
  if ncap > 0 then
    if ncap < seq_per_img then
      .ok <| (List.range seq_per_img).map fun q =>
        let ixl := randint ix1 ix2 (raw q)
        (d.labels.getD ixl.toNat []).take d.seq_length
    else
      let ixl := randint ix1 (ix2 - seq_per_img + 1) (raw 0)
      .ok <| (List.range seq_per_img).map fun q =>
        (d.labels.getD (ixl.toNat + q) []).take d.seq_length
  else
    .error "an image does not have any label"

/-- Well-formedness of the h5 label data, true of every real dataset: all
caption rows have exactly `seq_length` tokens (it is the table width), the
two pointer arrays have equal length, and pointers are 1-based indices
into the caption table. -/
def WFLabels (d : LabelData) : Prop :=
  (∀ row ∈ d.labels, row.length = d.seq_length)
  ∧ d.label_end_ix.length = d.label_start_ix.length
  ∧ ∀ i, i < d.label_start_ix.length →
      1 ≤ d.label_start_ix.getD i 0 ∧ d.label_end_ix.getD i 0 ≤ (d.labels.length : Int)

instance (d : LabelData) : Decidable (WFLabels d) := by
  unfold WFLabels
  exact inferInstance

/-- Image `ix` exists and has at least one caption. -/
def ValidCap (d : LabelData) (ix : Nat) : Prop :=
  ix < d.label_start_ix.length ∧ 1 ≤ ncapOf d ix

instance (d : LabelData) (ix : Nat) : Decidable (ValidCap d ix) := by
  unfold ValidCap
  exact inferInstance

/-- Fixed-width row write: the numpy row assignment of width `L`. -/
def padTo (L : Nat) (xs : List Nat) : List Nat :=
  xs.take L ++ List.replicate (L - xs.length) 0

/-- Row `r` of `tmp_label_batch` (lines 171 and 194): zero-initialized
width `L+2`, with columns `1..L` holding row `r mod spi` of the sequence
block of example `r / spi` (rows of unfetched examples stay zero, which
`padTo L []` reproduces). -/
def tmp_label_row (L spi : Nat) (seqs : List (List (List Nat))) (r : Nat) :
    List Nat :=
  0 :: padTo L ((seqs.getD (r / spi) []).getD (r % spi) []) ++ [0]

/-- `(x != 0).sum()` over one label row (line 216, before the `+2`). -/
def countNZ (row : List Nat) : Nat :=
  (row.filter fun x => x != 0).length

/-- `label_batch` (lines 212-214): a zero matrix of
`actual_batch_size * seq_per_img` rows of width `L+2` into which line 213
copies only the first `actual_batch_size` ROWS of `tmp_label_batch` (the
loop runs over `range(actual_batch_size)`), leaving the remaining rows
zero. -/
def label_batch_of (L spi abs : Nat) (ss : List (List (List Nat))) :
    List (List Nat) :=
  (List.range (abs * spi)).map fun i =>
    if i < abs then tmp_label_row L spi ss i
    else List.replicate (L + 2) 0

/-- `mask_batch` (lines 215-218): for each row of `label_batch`, a zero
row of width `L+2` whose first `countNZ(row) + 2` entries are set to 1. -/
def mask_batch_of (L : Nat) (lb : List (List Nat)) : List (List Nat) :=
  lb.map fun row =>
    (List.range (L + 2)).map fun j =>
      if j < countNZ row + 2 then (1 : Nat) else 0

/-- The `_get_sequence` calls issued for the fetched image indices, in
fetch order (`e` is the running example position, feeding the oracle). -/
def getSeqs (d : LabelData) (spi : Nat) (raws : Nat → Nat → Nat) :
    Nat → List Nat → Except String (List (List (List Nat)))
  | _, [] => .ok []
  | e, ix :: rest => do
    let s ← _get_sequence d ix spi (raws e)
    let ss ← getSeqs d spi raws (e + 1) rest
    return s :: ss

/-- `labels[label_start_ix[ix] - 1 : label_end_ix[ix]]` (line 197), the
ground-truth caption group of image `ix`. -/
def gts_for (d : LabelData) (ix : Nat) : List (List Nat) :=
  let a := d.label_start_ix.getD ix 0 - 1
  let b := d.label_end_ix.getD ix 0
  (d.labels.drop a.toNat).take (b - a).toNat

/-- The structured batch returned by `get_batch` (lines 221-232).  Feature
payloads are abstracted to the values of the `fc`/`att` oracles at the
image index. -/
structure BatchData where
  fc_feats : List Nat
  att_feats : List Nat
  labels : List (List Nat)
  gts : List (List (List Nat))
  masks : List (List Nat)
  it_pos_now : Nat
  it_max : Nat
  wrapped : Bool
  infos : List InfoDict
deriving DecidableEq, Repr

/-- The body of `DataLoader.get_batch` after argument defaulting (lines
169-232): run the fetch loop, sample each fetched image's captions, build
the label matrix (note: line 213 copies only the first `actual_batch_size`
ROWS of `tmp_label_batch`, captured by `if i < actual_batch_size`), build
the mask matrix from the copied label matrix, and assemble bounds.
`actual_batch_size = i + 1` where `i` is Python's loop variable, which
stays at its line-179 initialization `0` when `batch_size = 0`. -/
def get_batch_core (d : LabelData) (images : List ImageInfo)
    (fc att : Nat → Nat) (if_shuffle : Bool) (shuf : List Nat → List Nat)
    (raws : Nat → Nat → Nat) (batch_size seq_per_img : Nat)
    (st : SplitState) : Except String (BatchData × SplitState) := do
  let (exs, st2, wrapped) := fetchLoop if_shuffle shuf batch_size st
  let ixs := exs.map Prod.fst
  let seqs ← getSeqs d seq_per_img raws 0 ixs
  let L := d.seq_length
  let actual_batch_size := if batch_size = 0 then 1 else exs.length
  let label_batch := label_batch_of L seq_per_img actual_batch_size seqs
  let mask_batch := mask_batch_of L label_batch
  return ({ fc_feats := (exs.map fun p => List.replicate seq_per_img (fc p.1)).flatten
            att_feats := (exs.map fun p => List.replicate seq_per_img (att p.1)).flatten
            labels := label_batch
            gts := ixs.map (gts_for d)
            masks := mask_batch
            it_pos_now := st2.iterator
            it_max := st2.split_ix.length
            wrapped := wrapped
            infos := ixs.map (_make_info_dict images) }, st2)

/-- Python `arg or default` for the optional numeric arguments of
`get_batch` (lines 166-167): `None` and `0` are falsy. -/
def orDefault (arg : Option Nat) (dflt : Nat) : Nat :=
  match arg with
  | none => dflt
  | some 0 => dflt
  | some (n + 1) => n + 1

/-- `DataLoader.get_batch` entry point (lines 165-167 plus body): falsy
`batch_size` / `seq_per_img` arguments are replaced by the loader's
configured defaults. -/
def get_batch (d : LabelData) (images : List ImageInfo) (fc att : Nat → Nat)
    (if_shuffle : Bool) (shuf : List Nat → List Nat) (raws : Nat → Nat → Nat)
    (cfg_batch_size cfg_seq_per_img : Nat)
    (batch_size seq_per_img : Option Nat) (st : SplitState) :
    Except String (BatchData × SplitState) :=
  get_batch_core d images fc att if_shuffle shuf raws
    (orDefault batch_size cfg_batch_size) (orDefault seq_per_img cfg_seq_per_img) st

/-- The three split index lists built by `DataLoader.__init__`. -/
structure SplitLists where
  train : List Nat
  val : List Nat
  test : List Nat
deriving DecidableEq, Repr

/-- One iteration of the split-assignment loop (lines 92-101) on the pair
(image index, split label). -/
def splitStep (train_only : Nat) (acc : SplitLists) (p : Nat × String) :
    SplitLists :=
  if p.2 = "train" then { acc with train := acc.train ++ [p.1] }
  else if p.2 = "val" then { acc with val := acc.val ++ [p.1] }
  else if p.2 = "test" then { acc with test := acc.test ++ [p.1] }
  else if train_only = 0 then { acc with train := acc.train ++ [p.1] }
  else acc

/-- The split-assignment loop of `DataLoader.__init__` (lines 91-101),
run over the images' split labels in order. -/
def assignSplits (image_splits : List String) (train_only : Nat) : SplitLists :=
  image_splits.enum.foldl (splitStep train_only) ⟨[], [], []⟩

/-- The loader state produced by construction. -/
structure LoaderState where
  seq_length : Nat
  num_images : Nat
  splits : SplitLists
  iterators : Split → Nat

/-- The data-dependent part of `DataLoader.__init__` (lines 57-136): read
the table width as `seq_length`, the pointer arrays, build the split index
lists and zero all cursors.  The constructor performs no validation of the
per-image caption ranges (no `assert` mentions `label_start_ix` /
`label_end_ix`), so it succeeds on any dataset. -/
def loader_init (train_only : Nat) (image_splits : List String)
    (d : LabelData) : Except String LoaderState :=
  .ok { seq_length := d.seq_length
        num_images := d.label_start_ix.length
        splits := assignSplits image_splits train_only
        iterators := fun _ => 0 }

/-- Concrete dataset used to exhibit the label-copy defect: one image
with two captions `[7,8]` and `[9,10]`. -/
def dC1 : LabelData :=
  { labels := [[7, 8], [9, 10]]
    label_start_ix := [1]
    label_end_ix := [2]
    seq_length := 2 }

def imagesC1 : List ImageInfo :=
  [{ id := 100, file_path := "im0.jpg", split := "train" }]

/-- Concrete dataset with a zero-caption image: `label_start_ix[0] = 2`,
`label_end_ix[0] = 1`, so `ncap = 0`. -/
def dC9 : LabelData :=
  { labels := [[1, 2]]
    label_start_ix := [2]
    label_end_ix := [1]
    seq_length := 2 }

/-- Concrete well-formed dataset used by witnesses: one image with three
captions. -/
def dW : LabelData :=
  { labels := [[1, 2], [3, 4], [5, 6]]
    label_start_ix := [1]
    label_end_ix := [3]
    seq_length := 2 }

def imagesW : List ImageInfo :=
  [{ id := 7, file_path := "w0.jpg", split := "train" }]

/-- The label condition under which the `__init__` loop (lines 94-101)
appends an image to the train list: labelled `"train"`, or labelled none
of the three splits while `opt.train_only == 0` (the restval branch). -/
def goesToTrain (train_only : Nat) (lab : String) : Bool :=
  lab == "train"
    || (lab != "train" && lab != "val" && lab != "test" && train_only == 0)

/-- Condition for the val list (the `elif` chain reaches it only when the
label is not `"train"`). -/
def goesToVal (lab : String) : Bool :=
  lab != "train" && lab == "val"

/-- Condition for the test list. -/
def goesToTest (lab : String) : Bool :=
  lab != "train" && lab != "val" && lab == "test"

theorem randint_mem (a b : Int) (raw : Nat) (hab : a ≤ b) :
    a ≤ randint a b raw ∧ randint a b raw ≤ b := by
  unfold randint
  have hpos : (0 : Int) < b - a + 1 := by omega
  have h1 : 0 ≤ (raw : Int) % (b - a + 1) := Int.emod_nonneg _ (by omega)
  have h2 : (raw : Int) % (b - a + 1) < b - a + 1 := Int.emod_lt_of_pos _ hpos
  omega

theorem getNextMinibatchInds_fst (if_shuffle : Bool) (shuf : List Nat → List Nat)
    (st : SplitState) :
    (getNextMinibatchInds if_shuffle shuf st).1.1
      = st.split_ix.getD st.iterator 0 := by
  unfold getNextMinibatchInds
  by_cases h : st.iterator + 1 ≥ st.split_ix.length <;> simp [h]

theorem iterateInds_succ (sh : Bool) (shuf : List Nat → List Nat) (n : Nat)
    (st : SplitState) :
    iterateInds sh shuf (n + 1) st
      = ((getNextMinibatchInds sh shuf st).1
           :: (iterateInds sh shuf n (getNextMinibatchInds sh shuf st).2).1,
         (iterateInds sh shuf n (getNextMinibatchInds sh shuf st).2).2) := by
  rcases hg : getNextMinibatchInds sh shuf st with ⟨r, st1⟩
  rcases hi : iterateInds sh shuf n st1 with ⟨rs, st2⟩
  simp [iterateInds, hg, hi]

theorem getNextMinibatchInds_wrap (sh : Bool) (shuf : List Nat → List Nat)
    (st : SplitState) (h : st.iterator + 1 ≥ st.split_ix.length) :
    getNextMinibatchInds sh shuf st
      = ((st.split_ix.getD st.iterator 0, true),
         ⟨if sh then shuf st.split_ix else st.split_ix, 0⟩) := by
  unfold getNextMinibatchInds
  simp [h]

theorem getNextMinibatchInds_no_wrap (sh : Bool) (shuf : List Nat → List Nat)
    (st : SplitState) (h : ¬ (st.iterator + 1 ≥ st.split_ix.length)) :
    getNextMinibatchInds sh shuf st
      = ((st.split_ix.getD st.iterator 0, false),
         ⟨st.split_ix, st.iterator + 1⟩) := by
  unfold getNextMinibatchInds
  simp [h]

theorem iterateInds_run (shuf : List Nat → List Nat) :
    ∀ (k c : Nat) (l : List Nat), 1 ≤ k → c + k = l.length →
      (iterateInds false shuf k ⟨l, c⟩).1.map Prod.fst = l.drop c
      ∧ (iterateInds false shuf k ⟨l, c⟩).1.map Prod.snd
          = List.replicate (k - 1) false ++ [true]
      ∧ (iterateInds false shuf k ⟨l, c⟩).2 = ⟨l, 0⟩ := by
  intro k
  induction k with
  | zero => intro c l h; omega
  | succ k ih =>
    intro c l _ hlen
    have hclt : c < l.length := by omega
    have hgetD' : l[c]?.getD 0 = l[c] := by
      rw [List.getElem?_eq_getElem hclt]
      rfl
    have hgetD : l.getD c 0 = l[c] := by
      rw [List.getD_eq_getElem?_getD]
      exact hgetD'
    cases k with
    | zero =>
      have hge : (⟨l, c⟩ : SplitState).iterator + 1
          ≥ (⟨l, c⟩ : SplitState).split_ix.length := by
        simp; omega
      have hdrop : l.drop c = [l[c]] := by
        rw [List.drop_eq_getElem_cons hclt, List.drop_eq_nil_of_le (by omega)]
      rw [iterateInds_succ, getNextMinibatchInds_wrap false shuf _ hge]
      simp [iterateInds, hdrop, hgetD, hgetD']
    | succ k =>
      have hlt : ¬ ((⟨l, c⟩ : SplitState).iterator + 1
          ≥ (⟨l, c⟩ : SplitState).split_ix.length) := by
        simp; omega
      obtain ⟨ih1, ih2, ih3⟩ := ih (c + 1) l (by omega) (by omega)
      have hdrop : l.drop c = l[c] :: l.drop (c + 1) :=
        List.drop_eq_getElem_cons hclt
      rw [iterateInds_succ, getNextMinibatchInds_no_wrap false shuf _ hlt]
      simp only [List.map_cons]
      refine ⟨by rw [hgetD, ih1]; exact hdrop.symm, ?_, by simpa using ih3⟩
      rw [ih2]
      simp [List.replicate_succ]

/-- C4: with shuffling disabled, iterating a split of size `N > 0` from
cursor 0 yields each of the split's indices exactly once, in list order,
with the wrap flag true exactly on the `N`-th call, and the cursor back at
0 immediately after; moreover every single call keeps the cursor inside
`[0, N)` and leaves the index list unchanged. -/
theorem prefetch_epoch_iteration (l : List Nat) (shuf : List Nat → List Nat)
    (N : Nat) (hN : N = l.length) (hpos : 0 < N) :
    (iterateInds false shuf N ⟨l, 0⟩).1.map Prod.fst = l
    ∧ (iterateInds false shuf N ⟨l, 0⟩).1.map Prod.snd
        = List.replicate (N - 1) false ++ [true]
    ∧ (iterateInds false shuf N ⟨l, 0⟩).2 = ⟨l, 0⟩
    ∧ (∀ st : SplitState, st.split_ix = l → st.iterator < N →
        (getNextMinibatchInds false shuf st).2.split_ix = l
        ∧ (getNextMinibatchInds false shuf st).2.iterator < N) := by
  obtain ⟨h1, h2, h3⟩ := iterateInds_run shuf N 0 l hpos (by omega)
  refine ⟨by simpa using h1, h2, h3, ?_⟩
  intro st hix hit
  obtain ⟨lst, cst⟩ := st
  simp only at hix
  subst hix
  unfold getNextMinibatchInds
  by_cases h : cst + 1 ≥ lst.length <;> simp [h] <;> omega

theorem prefetch_epoch_iteration_witness :
    (3 = ([5, 7, 9] : List Nat).length) ∧ (0 < 3)
    ∧ ((iterateInds false id 3 ⟨[5, 7, 9], 0⟩).1.map Prod.fst = [5, 7, 9]
      ∧ (iterateInds false id 3 ⟨[5, 7, 9], 0⟩).1.map Prod.snd
          = List.replicate 2 false ++ [true]
      ∧ (iterateInds false id 3 ⟨[5, 7, 9], 0⟩).2 = ⟨[5, 7, 9], 0⟩
      ∧ (∀ st : SplitState, st.split_ix = [5, 7, 9] → st.iterator < 3 →
          (getNextMinibatchInds false id st).2.split_ix = [5, 7, 9]
          ∧ (getNextMinibatchInds false id st).2.iterator < 3)) :=
  ⟨rfl, by decide, prefetch_epoch_iteration [5, 7, 9] id 3 rfl (by decide)⟩

theorem fetchLoop_head (if_shuffle : Bool) (shuf : List Nat → List Nat)
    (b : Nat) (st : SplitState) :
    ((fetchLoop if_shuffle shuf (b + 1) st).1.map Prod.fst).head?
      = some (st.split_ix.getD st.iterator 0) := by
  have hfst := getNextMinibatchInds_fst if_shuffle shuf st
  simp only [fetchLoop]
  by_cases h : (getNextMinibatchInds if_shuffle shuf st).1.2 <;>
    simp [h, hfst]

/-- C6: `reset_iterator` zeroes the chosen split's cursor and discards its
prefetcher, leaves every split's index list and the other splits' cursors
and prefetchers unchanged, and a subsequent `get_batch` fetch loop on that
split starts with entry 0 of the split's current order. -/
theorem reset_iterator_spec (s t : Split) (st : LoaderIterators)
    (if_shuffle : Bool) (shuf : List Nat → List Nat) (hne : t ≠ s) :
    (reset_iterator s st).iterators s = 0
    ∧ (reset_iterator s st).pf_active s = false
    ∧ (reset_iterator s st).split_ix = st.split_ix
    ∧ (reset_iterator s st).iterators t = st.iterators t
    ∧ (reset_iterator s st).pf_active t = st.pf_active t
    ∧ ∀ bs : Nat, 1 ≤ bs →
        ((fetchLoop if_shuffle shuf bs
            ⟨(reset_iterator s st).split_ix s,
             (reset_iterator s st).iterators s⟩).1.map Prod.fst).head?
          = some ((st.split_ix s).getD 0 0) := by
  refine ⟨?_, ?_, rfl, ?_, ?_, ?_⟩
  · simp [reset_iterator]
  · simp [reset_iterator]
  · simp [reset_iterator, Function.update_noteq hne]
  · simp [reset_iterator, Function.update_noteq hne]
  · intro bs hbs
    match bs, hbs with
    | b + 1, _ =>
      rw [fetchLoop_head]
      simp [reset_iterator]

theorem reset_iterator_spec_witness :
    (Split.val ≠ Split.train)
    ∧ ((reset_iterator Split.train
          ⟨fun _ => [4, 6], fun _ => 1, fun _ => true⟩).iterators Split.train = 0
      ∧ (reset_iterator Split.train
          ⟨fun _ => [4, 6], fun _ => 1, fun _ => true⟩).pf_active Split.train = false
      ∧ (reset_iterator Split.train
          ⟨fun _ => [4, 6], fun _ => 1, fun _ => true⟩).split_ix
          = (⟨fun _ => [4, 6], fun _ => 1, fun _ => true⟩ : LoaderIterators).split_ix
      ∧ (reset_iterator Split.train
          ⟨fun _ => [4, 6], fun _ => 1, fun _ => true⟩).iterators Split.val
          = (⟨fun _ => [4, 6], fun _ => 1, fun _ => true⟩ : LoaderIterators).iterators Split.val
      ∧ (reset_iterator Split.train
          ⟨fun _ => [4, 6], fun _ => 1, fun _ => true⟩).pf_active Split.val
          = (⟨fun _ => [4, 6], fun _ => 1, fun _ => true⟩ : LoaderIterators).pf_active Split.val
      ∧ ∀ bs : Nat, 1 ≤ bs →
          ((fetchLoop false id bs
              ⟨(reset_iterator Split.train
                  ⟨fun _ => [4, 6], fun _ => 1, fun _ => true⟩).split_ix Split.train,
               (reset_iterator Split.train
                  ⟨fun _ => [4, 6], fun _ => 1, fun _ => true⟩).iterators Split.train⟩).1.map
            Prod.fst).head?
            = some ((([4, 6] : List Nat)).getD 0 0)) :=
  ⟨by decide,
   reset_iterator_spec Split.train Split.val
     ⟨fun _ => [4, 6], fun _ => 1, fun _ => true⟩ false id (by decide)⟩

/-- C8: every `_get_next_minibatch_inds` call with shuffling enabled
preserves the multiset (hence also the length) of the split's index list,
provided the shuffle oracle permutes its input, as `random.shuffle` does;
in particular the list after a wrap is a permutation of the list before. -/
theorem wrap_preserves_index_multiset (shuf : List Nat → List Nat)
    (st : SplitState) (hperm : (shuf st.split_ix).Perm st.split_ix) :
    ((getNextMinibatchInds true shuf st).2.split_ix).Perm st.split_ix
    ∧ ((getNextMinibatchInds true shuf st).2.split_ix).length
        = st.split_ix.length := by
  unfold getNextMinibatchInds
  by_cases h : st.iterator + 1 ≥ st.split_ix.length <;> simp [h]
  exact ⟨hperm, hperm.length_eq⟩

theorem wrap_preserves_index_multiset_witness :
    ((id [1, 2] : List Nat).Perm [1, 2])
    ∧ (((getNextMinibatchInds true id ⟨[1, 2], 1⟩).2.split_ix).Perm [1, 2]
      ∧ ((getNextMinibatchInds true id ⟨[1, 2], 1⟩).2.split_ix).length
          = ([1, 2] : List Nat).length) :=
  ⟨by decide, wrap_preserves_index_multiset id ⟨[1, 2], 1⟩ (by decide)⟩

/-- C10: a falsy (`0` or `None`) `batch_size` / `seq_per_img` argument to
`get_batch` is replaced by the loader's configured default, so calling
with `0` behaves exactly like calling with the argument omitted. -/
theorem get_batch_falsy_args_default (d : LabelData) (images : List ImageInfo)
    (fc att : Nat → Nat) (if_shuffle : Bool) (shuf : List Nat → List Nat)
    (raws : Nat → Nat → Nat) (cbs cspi : Nat) (bsArg spiArg : Option Nat)
    (st : SplitState) :
    get_batch d images fc att if_shuffle shuf raws cbs cspi (some 0) spiArg st
      = get_batch d images fc att if_shuffle shuf raws cbs cspi none spiArg st
    ∧ get_batch d images fc att if_shuffle shuf raws cbs cspi bsArg (some 0) st
      = get_batch d images fc att if_shuffle shuf raws cbs cspi bsArg none st
    ∧ orDefault (some 0) cbs = cbs
    ∧ orDefault none cbs = cbs :=
  ⟨rfl, rfl, rfl, rfl⟩

theorem splitStep_foldl (t : Nat) (ps : List (Nat × String)) :
    ∀ acc : SplitLists,
      (ps.foldl (splitStep t) acc).train
        = acc.train ++ (ps.filter fun p => goesToTrain t p.2).map Prod.fst
      ∧ (ps.foldl (splitStep t) acc).val
        = acc.val ++ (ps.filter fun p => goesToVal p.2).map Prod.fst
      ∧ (ps.foldl (splitStep t) acc).test
        = acc.test ++ (ps.filter fun p => goesToTest p.2).map Prod.fst := by
  induction ps with
  | nil => intro acc; simp
  | cons p ps ih =>
    intro acc
    obtain ⟨ih1, ih2, ih3⟩ := ih (splitStep t acc p)
    simp only [List.foldl_cons]
    refine ⟨?_, ?_, ?_⟩ <;> [rw [ih1]; rw [ih2]; rw [ih3]] <;>
      by_cases h1 : p.2 = "train" <;>
      by_cases h2 : p.2 = "val" <;>
      by_cases h3 : p.2 = "test" <;>
      by_cases h4 : t = 0 <;>
      simp [splitStep, goesToTrain, goesToVal, goesToTest, h1, h2, h3, h4]

theorem mem_assign_iff (cond : String → Bool) (ls : List String) (ix : Nat) :
    ix ∈ (ls.enum.filter fun p => cond p.2).map Prod.fst
      ↔ ∃ lab, ls[ix]? = some lab ∧ cond lab = true := by
  constructor
  · intro h
    obtain ⟨⟨i, lab⟩, hmem, rfl⟩ := List.mem_map.mp h
    obtain ⟨henum, hcond⟩ := List.mem_filter.mp hmem
    exact ⟨lab, List.mem_enum_iff_getElem?.mp henum, hcond⟩
  · rintro ⟨lab, hget, hcond⟩
    exact List.mem_map.mpr ⟨(ix, lab),
      List.mem_filter.mpr ⟨List.mem_enum_iff_getElem?.mpr hget, hcond⟩, rfl⟩

theorem filter_partition_length {α : Type} (p q r : α → Bool)
    (h : ∀ x, (p x).toNat + (q x).toNat + (r x).toNat = 1) :
    ∀ l : List α,
      (l.filter p).length + (l.filter q).length + (l.filter r).length
        = l.length := by
  intro l
  induction l with
  | nil => simp
  | cons a l ih =>
    have ha := h a
    cases hp : p a <;> cases hq : q a <;> cases hr : r a <;>
      simp [hp, hq, hr] at ha ⊢ <;> omega

/-- C7: every image labelled `train` / `val` / `test` is assigned to
exactly that split list; every image with any other label is assigned to
the train list iff `train_only = 0` and nowhere otherwise; with restval
folded in (`train_only = 0`) the three split sizes sum to the number of
image records. -/
theorem split_assignment_spec (image_splits : List String) (t : Nat)
    (ix : Nat) (hix : ix < image_splits.length) :
    (image_splits.getD ix "" = "train" →
        ix ∈ (assignSplits image_splits t).train
        ∧ ix ∉ (assignSplits image_splits t).val
        ∧ ix ∉ (assignSplits image_splits t).test)
    ∧ (image_splits.getD ix "" = "val" →
        ix ∉ (assignSplits image_splits t).train
        ∧ ix ∈ (assignSplits image_splits t).val
        ∧ ix ∉ (assignSplits image_splits t).test)
    ∧ (image_splits.getD ix "" = "test" →
        ix ∉ (assignSplits image_splits t).train
        ∧ ix ∉ (assignSplits image_splits t).val
        ∧ ix ∈ (assignSplits image_splits t).test)
    ∧ (image_splits.getD ix "" ≠ "train" → image_splits.getD ix "" ≠ "val" →
        image_splits.getD ix "" ≠ "test" →
        ((ix ∈ (assignSplits image_splits t).train ↔ t = 0)
          ∧ ix ∉ (assignSplits image_splits t).val
          ∧ ix ∉ (assignSplits image_splits t).test))
    ∧ (t = 0 →
        (assignSplits image_splits t).train.length
          + (assignSplits image_splits t).val.length
          + (assignSplits image_splits t).test.length
          = image_splits.length) := by
  obtain ⟨h1, h2, h3⟩ := splitStep_foldl t image_splits.enum ⟨[], [], []⟩
  have hasgn : assignSplits image_splits t = image_splits.enum.foldl (splitStep t) ⟨[], [], []⟩ := rfl
  have hget : image_splits[ix]? = some (image_splits.getD ix "") := by
    rw [List.getD_eq_getElem?_getD, List.getElem?_eq_getElem hix]
    rfl
  have hmemT : ix ∈ (assignSplits image_splits t).train
      ↔ goesToTrain t (image_splits.getD ix "") = true := by
    rw [hasgn, h1]
    simp only [List.nil_append, mem_assign_iff]
    constructor
    · rintro ⟨lab, hlab, hc⟩
      rw [hget] at hlab
      cases hlab
      exact hc
    · intro hc
      exact ⟨_, hget, hc⟩
  have hmemV : ix ∈ (assignSplits image_splits t).val
      ↔ goesToVal (image_splits.getD ix "") = true := by
    rw [hasgn, h2]
    simp only [List.nil_append, mem_assign_iff]
    constructor
    · rintro ⟨lab, hlab, hc⟩
      rw [hget] at hlab
      cases hlab
      exact hc
    · intro hc
      exact ⟨_, hget, hc⟩
  have hmemS : ix ∈ (assignSplits image_splits t).test
      ↔ goesToTest (image_splits.getD ix "") = true := by
    rw [hasgn, h3]
    simp only [List.nil_append, mem_assign_iff]
    constructor
    · rintro ⟨lab, hlab, hc⟩
      rw [hget] at hlab
      cases hlab
      exact hc
    · intro hc
      exact ⟨_, hget, hc⟩
  obtain ⟨lab, hl⟩ : ∃ lab, image_splits.getD ix "" = lab := ⟨_, rfl⟩
  rw [hl] at hmemT hmemV hmemS
  rw [hl]
  refine ⟨?_, ?_, ?_, ?_, ?_⟩
  · intro hlab
    subst hlab
    rw [hmemT, hmemV, hmemS]
    refine ⟨by simp [goesToTrain], by simp [goesToVal], by simp [goesToTest]⟩
  · intro hlab
    subst hlab
    rw [hmemT, hmemV, hmemS]
    refine ⟨by simp [goesToTrain], by simp [goesToVal], by simp [goesToTest]⟩
  · intro hlab
    subst hlab
    rw [hmemT, hmemV, hmemS]
    refine ⟨by simp [goesToTrain], by simp [goesToVal], by simp [goesToTest]⟩
  · intro ha hb hc
    rw [hmemT, hmemV, hmemS]
    have b1 : (lab == "train") = false := beq_eq_false_iff_ne.mpr ha
    have b2 : (lab == "val") = false := beq_eq_false_iff_ne.mpr hb
    have b3 : (lab == "test") = false := beq_eq_false_iff_ne.mpr hc
    refine ⟨?_, by simp [goesToVal, b1, b2, bne], by simp [goesToTest, b1, b2, b3, bne]⟩
    simp [goesToTrain, b1, b2, b3, bne]
  · intro ht
    subst ht
    rw [hasgn, h1, h2, h3]
    simp only [List.nil_append, List.length_map]
    rw [filter_partition_length (fun p => goesToTrain 0 p.2)
      (fun p => goesToVal p.2) (fun p => goesToTest p.2) ?_ image_splits.enum]
    · exact List.enum_length
    · intro x
      cases hb1 : (x.2 == "train") <;> cases hb2 : (x.2 == "val") <;>
        cases hb3 : (x.2 == "test") <;>
        simp [goesToTrain, goesToVal, goesToTest, bne, hb1, hb2, hb3]

theorem split_assignment_spec_witness :
    (7 < (["train", "train", "train", "val", "val", "test", "test",
           "restval", "restval", "restval"] : List String).length)
    ∧ ((["train", "train", "train", "val", "val", "test", "test",
         "restval", "restval", "restval"] : List String).getD 7 "" = "train" →
          7 ∈ (assignSplits ["train", "train", "train", "val", "val", "test",
                "test", "restval", "restval", "restval"] 0).train
          ∧ 7 ∉ (assignSplits ["train", "train", "train", "val", "val", "test",
                "test", "restval", "restval", "restval"] 0).val
          ∧ 7 ∉ (assignSplits ["train", "train", "train", "val", "val", "test",
                "test", "restval", "restval", "restval"] 0).test)
    ∧ ((["train", "train", "train", "val", "val", "test", "test",
         "restval", "restval", "restval"] : List String).getD 7 "" = "val" →
          7 ∉ (assignSplits ["train", "train", "train", "val", "val", "test",
                "test", "restval", "restval", "restval"] 0).train
          ∧ 7 ∈ (assignSplits ["train", "train", "train", "val", "val", "test",
                "test", "restval", "restval", "restval"] 0).val
          ∧ 7 ∉ (assignSplits ["train", "train", "train", "val", "val", "test",
                "test", "restval", "restval", "restval"] 0).test)
    ∧ ((["train", "train", "train", "val", "val", "test", "test",
         "restval", "restval", "restval"] : List String).getD 7 "" = "test" →
          7 ∉ (assignSplits ["train", "train", "train", "val", "val", "test",
                "test", "restval", "restval", "restval"] 0).train
          ∧ 7 ∉ (assignSplits ["train", "train", "train", "val", "val", "test",
                "test", "restval", "restval", "restval"] 0).val
          ∧ 7 ∈ (assignSplits ["train", "train", "train", "val", "val", "test",
                "test", "restval", "restval", "restval"] 0).test)
    ∧ ((["train", "train", "train", "val", "val", "test", "test",
         "restval", "restval", "restval"] : List String).getD 7 "" ≠ "train" →
        (["train", "train", "train", "val", "val", "test", "test",
          "restval", "restval", "restval"] : List String).getD 7 "" ≠ "val" →
        (["train", "train", "train", "val", "val", "test", "test",
          "restval", "restval", "restval"] : List String).getD 7 "" ≠ "test" →
          ((7 ∈ (assignSplits ["train", "train", "train", "val", "val", "test",
                  "test", "restval", "restval", "restval"] 0).train ↔ 0 = 0)
            ∧ 7 ∉ (assignSplits ["train", "train", "train", "val", "val", "test",
                  "test", "restval", "restval", "restval"] 0).val
            ∧ 7 ∉ (assignSplits ["train", "train", "train", "val", "val", "test",
                  "test", "restval", "restval", "restval"] 0).test))
    ∧ ((0 : Nat) = 0 →
        (assignSplits ["train", "train", "train", "val", "val", "test",
            "test", "restval", "restval", "restval"] 0).train.length
          + (assignSplits ["train", "train", "train", "val", "val", "test",
              "test", "restval", "restval", "restval"] 0).val.length
          + (assignSplits ["train", "train", "train", "val", "val", "test",
              "test", "restval", "restval", "restval"] 0).test.length
          = (["train", "train", "train", "val", "val", "test", "test",
              "restval", "restval", "restval"] : List String).length) :=
  ⟨by decide,
   split_assignment_spec ["train", "train", "train", "val", "val", "test",
     "test", "restval", "restval", "restval"] 0 7 (by decide)⟩

theorem get_sequence_eq_subsample (d : LabelData) (ix spi : Nat)
    (raw : Nat → Nat) (hpos : ncapOf d ix > 0)
    (hlt : ncapOf d ix < (spi : Int)) :
    _get_sequence d ix spi raw
      = .ok ((List.range spi).map fun q =>
          (d.labels.getD (randint (d.label_start_ix.getD ix 0 - 1)
              (d.label_end_ix.getD ix 0 - 1) (raw q)).toNat []).take
            d.seq_length) := by
  unfold ncapOf at hpos hlt
  simp only [_get_sequence]
  rw [if_pos hpos, if_pos hlt]

theorem get_sequence_eq_window (d : LabelData) (ix spi : Nat)
    (raw : Nat → Nat) (hpos : ncapOf d ix > 0)
    (hge : ¬ (ncapOf d ix < (spi : Int))) :
    _get_sequence d ix spi raw
      = .ok ((List.range spi).map fun q =>
          (d.labels.getD ((randint (d.label_start_ix.getD ix 0 - 1)
              (d.label_end_ix.getD ix 0 - 1 - spi + 1) (raw 0)).toNat + q)
            []).take d.seq_length) := by
  unfold ncapOf at hpos hge
  simp only [_get_sequence]
  rw [if_pos hpos, if_neg hge]

theorem get_sequence_err (d : LabelData) (ix spi : Nat) (raw : Nat → Nat)
    (hnpos : ¬ (ncapOf d ix > 0)) :
    _get_sequence d ix spi raw = .error "an image does not have any label" := by
  unfold ncapOf at hnpos
  simp only [_get_sequence]
  rw [if_neg hnpos]

theorem getD_map_range {β : Type} (f : Nat → β) (dflt : β) (n q : Nat)
    (hq : q < n) : ((List.range n).map f).getD q dflt = f q := by
  rw [List.getD_eq_getElem?_getD, List.getElem?_map, List.getElem?_range hq]
  rfl

theorem labels_row_exact (d : LabelData) (hwf : WFLabels d) (j : Nat)
    (hj : j < d.labels.length) :
    (d.labels.getD j []).take d.seq_length = d.labels.getD j []
    ∧ (d.labels.getD j []).length = d.seq_length := by
  have hmem : d.labels.getD j [] ∈ d.labels := by
    rw [List.getD_eq_getElem?_getD, List.getElem?_eq_getElem hj]
    exact List.getElem_mem hj
  have hlen := hwf.1 _ hmem
  exact ⟨List.take_of_length_le (le_of_eq hlen), hlen⟩

/-- C2: for a well-formed dataset, an existing image with `ncap ≥ 1` and
`seq_per_img ≥ 1`, `_get_sequence` succeeds with exactly `seq_per_img`
rows of width `seq_length`; in the `ncap < seq_per_img` branch every
returned row is one of that image's own caption rows (each row chosen by
an independent `randint` draw over the image's caption range, with
replacement), and otherwise the rows are one contiguous window of
`seq_per_img` consecutive caption rows whose random starting offset keeps
the window inside the image's caption range. -/
theorem get_sequence_sampling_spec (d : LabelData) (ix spi : Nat)
    (raw : Nat → Nat) (hwf : WFLabels d) (hval : ValidCap d ix)
    (hspi : 1 ≤ spi) :
    ∃ s, _get_sequence d ix spi raw = .ok s
      ∧ s.length = spi
      ∧ (∀ row ∈ s, row.length = d.seq_length)
      ∧ (ncapOf d ix < (spi : Int) →
          ∀ q, q < spi → ∃ j : Nat,
            d.label_start_ix.getD ix 0 - 1 ≤ (j : Int)
            ∧ (j : Int) ≤ d.label_end_ix.getD ix 0 - 1
            ∧ s.getD q [] = d.labels.getD j [])
      ∧ ((spi : Int) ≤ ncapOf d ix →
          ∃ off : Nat,
            d.label_start_ix.getD ix 0 - 1 ≤ (off : Int)
            ∧ (off : Int) + spi - 1 ≤ d.label_end_ix.getD ix 0 - 1
            ∧ ∀ q, q < spi → s.getD q [] = d.labels.getD (off + q) []) := by
  obtain ⟨hixlt, hncap⟩ := hval
  obtain ⟨hstart, hend⟩ := hwf.2.2 ix hixlt
  have hncap' : 1 ≤ d.label_end_ix.getD ix 0 - d.label_start_ix.getD ix 0 + 1 := by
    unfold ncapOf at hncap
    omega
  have hpos : ncapOf d ix > 0 := hncap
  have hlenZ : (d.labels.length : Int) ≥ d.label_end_ix.getD ix 0 := hend
  by_cases hlt : ncapOf d ix < (spi : Int)
  · rw [get_sequence_eq_subsample d ix spi raw hpos hlt]
    refine ⟨_, rfl, by simp, ?_, ?_, ?_⟩
    · intro row hrow
      obtain ⟨q, hq, rfl⟩ := List.mem_map.mp hrow
      have hrange := randint_mem (d.label_start_ix.getD ix 0 - 1)
        (d.label_end_ix.getD ix 0 - 1) (raw q) (by omega)
      set r := randint (d.label_start_ix.getD ix 0 - 1)
        (d.label_end_ix.getD ix 0 - 1) (raw q) with hr
      have hr0 : 0 ≤ r := by omega
      have hjlt : r.toNat < d.labels.length := by omega
      obtain ⟨htake, hlen⟩ := labels_row_exact d hwf r.toNat hjlt
      rw [htake, hlen]
    · intro _ q hq
      have hrange := randint_mem (d.label_start_ix.getD ix 0 - 1)
        (d.label_end_ix.getD ix 0 - 1) (raw q) (by omega)
      set r := randint (d.label_start_ix.getD ix 0 - 1)
        (d.label_end_ix.getD ix 0 - 1) (raw q) with hr
      have hr0 : 0 ≤ r := by omega
      have hjlt : r.toNat < d.labels.length := by omega
      obtain ⟨htake, _⟩ := labels_row_exact d hwf r.toNat hjlt
      refine ⟨r.toNat, by omega, by omega, ?_⟩
      rw [getD_map_range _ _ _ _ hq, htake]
    · intro hge
      omega
  · rw [get_sequence_eq_window d ix spi raw hpos hlt]
    have hrange := randint_mem (d.label_start_ix.getD ix 0 - 1)
      (d.label_end_ix.getD ix 0 - 1 - spi + 1) (raw 0)
      (by unfold ncapOf at hlt; omega)
    set r := randint (d.label_start_ix.getD ix 0 - 1)
      (d.label_end_ix.getD ix 0 - 1 - spi + 1) (raw 0) with hr
    have hr0 : 0 ≤ r := by omega
    have hwin : ∀ q, q < spi → r.toNat + q < d.labels.length := by
      intro q hq
      omega
    refine ⟨_, rfl, by simp, ?_, fun h => absurd h hlt, ?_⟩
    · intro row hrow
      obtain ⟨q, hq, rfl⟩ := List.mem_map.mp hrow
      obtain ⟨htake, hlen⟩ := labels_row_exact d hwf (r.toNat + q)
        (hwin q (List.mem_range.mp hq))
      rw [htake, hlen]
    · intro _
      refine ⟨r.toNat, by omega, by omega, ?_⟩
      intro q hq
      obtain ⟨htake, _⟩ := labels_row_exact d hwf (r.toNat + q) (hwin q hq)
      rw [getD_map_range _ _ _ _ hq, htake]

theorem get_sequence_sampling_spec_witness :
    WFLabels dW ∧ ValidCap dW 0 ∧ 1 ≤ 2
    ∧ (∃ s, _get_sequence dW 0 2 (fun _ => 0) = .ok s
        ∧ s.length = 2
        ∧ (∀ row ∈ s, row.length = dW.seq_length)
        ∧ (ncapOf dW 0 < (2 : Int) →
            ∀ q, q < 2 → ∃ j : Nat,
              dW.label_start_ix.getD 0 0 - 1 ≤ (j : Int)
              ∧ (j : Int) ≤ dW.label_end_ix.getD 0 0 - 1
              ∧ s.getD q [] = dW.labels.getD j [])
        ∧ ((2 : Int) ≤ ncapOf dW 0 →
            ∃ off : Nat,
              dW.label_start_ix.getD 0 0 - 1 ≤ (off : Int)
              ∧ (off : Int) + 2 - 1 ≤ dW.label_end_ix.getD 0 0 - 1
              ∧ ∀ q, q < 2 → s.getD q [] = dW.labels.getD (off + q) [])) :=
  ⟨by decide, by decide, by decide,
   get_sequence_sampling_spec dW 0 2 (fun _ => 0) (by decide) (by decide)
     (by decide)⟩

/-- C9 counterexample: loader construction does NOT reject a dataset
containing a zero-caption image.  `dC9` has `label_start_ix[0] = 2`,
`label_end_ix[0] = 1`, hence `ncap = 0`, yet `__init__` (which performs no
caption-range validation) succeeds, refuting the claim that "loader
construction rejects a dataset containing such an image". -/
theorem init_accepts_zero_caption_dataset :
    ncapOf dC9 0 = 0
    ∧ (loader_init 0 ["train"] dC9).isOk = true := by
  constructor
  · rfl
  · rfl

/-- C9 (amended): loader construction never fails — in particular it
accepts datasets with a zero-caption image — while any caption retrieval
for an image with `ncap ≤ 0` fails with the propagated assertion error
instead of returning a sequence matrix. -/
theorem zero_caption_retrieval_fails (t : Nat) (ls : List String)
    (d : LabelData) (ix spi : Nat) (raw : Nat → Nat)
    (hz : ncapOf d ix ≤ 0) :
    (loader_init t ls d).isOk = true
    ∧ _get_sequence d ix spi raw = .error "an image does not have any label" :=
  ⟨rfl, get_sequence_err d ix spi raw (by omega)⟩

theorem zero_caption_retrieval_fails_witness :
    ncapOf dC9 0 ≤ 0
    ∧ ((loader_init 0 ["train"] dC9).isOk = true
      ∧ _get_sequence dC9 0 5 (fun _ => 0)
          = .error "an image does not have any label") :=
  ⟨by decide, zero_caption_retrieval_fails 0 ["train"] dC9 0 5 (fun _ => 0)
    (by decide)⟩

theorem get_sequence_ok (d : LabelData) (ix spi : Nat) (raw : Nat → Nat)
    (hwf : WFLabels d) (hval : ValidCap d ix) :
    ∃ s, _get_sequence d ix spi raw = .ok s ∧ s.length = spi
      ∧ ∀ row ∈ s, row.length = d.seq_length := by
  obtain ⟨hixlt, hncap⟩ := hval
  obtain ⟨hstart, hend⟩ := hwf.2.2 ix hixlt
  have hpos : ncapOf d ix > 0 := hncap
  have hncap' : 1 ≤ d.label_end_ix.getD ix 0 - d.label_start_ix.getD ix 0 + 1 := by
    unfold ncapOf at hncap
    omega
  by_cases hlt : ncapOf d ix < (spi : Int)
  · rw [get_sequence_eq_subsample d ix spi raw hpos hlt]
    refine ⟨_, rfl, by simp, ?_⟩
    intro row hrow
    obtain ⟨q, hq, rfl⟩ := List.mem_map.mp hrow
    have hrange := randint_mem (d.label_start_ix.getD ix 0 - 1)
      (d.label_end_ix.getD ix 0 - 1) (raw q) (by omega)
    obtain ⟨htake, hlen⟩ := labels_row_exact d hwf
      (randint (d.label_start_ix.getD ix 0 - 1)
        (d.label_end_ix.getD ix 0 - 1) (raw q)).toNat (by omega)
    rw [htake, hlen]
  · rw [get_sequence_eq_window d ix spi raw hpos hlt]
    have hrange := randint_mem (d.label_start_ix.getD ix 0 - 1)
      (d.label_end_ix.getD ix 0 - 1 - spi + 1) (raw 0)
      (by unfold ncapOf at hlt; omega)
    refine ⟨_, rfl, by simp, ?_⟩
    intro row hrow
    obtain ⟨q, hq, rfl⟩ := List.mem_map.mp hrow
    have hqlt : q < spi := List.mem_range.mp hq
    obtain ⟨htake, hlen⟩ := labels_row_exact d hwf
      ((randint (d.label_start_ix.getD ix 0 - 1)
        (d.label_end_ix.getD ix 0 - 1 - spi + 1) (raw 0)).toNat + q) (by omega)
    rw [htake, hlen]

theorem getSeqs_ok (d : LabelData) (spi : Nat) (raws : Nat → Nat → Nat)
    (hwf : WFLabels d) :
    ∀ (ixs : List Nat) (e : Nat), (∀ ix ∈ ixs, ValidCap d ix) →
      ∃ ss, getSeqs d spi raws e ixs = .ok ss
        ∧ ss.length = ixs.length
        ∧ ∀ blk ∈ ss, blk.length = spi
            ∧ ∀ row ∈ blk, row.length = d.seq_length := by
  intro ixs
  induction ixs with
  | nil => intro e _; exact ⟨[], rfl, rfl, by simp⟩
  | cons ix rest ih =>
    intro e hval
    obtain ⟨s, hs, hslen, hsrows⟩ :=
      get_sequence_ok d ix spi (raws e) hwf (hval ix (by simp))
    obtain ⟨ss, hss, hsslen, hssblk⟩ :=
      ih (e + 1) (fun j hj => hval j (by simp [hj]))
    refine ⟨s :: ss, ?_, by simp [hsslen], ?_⟩
    · simp only [getSeqs, hs, hss]
      rfl
    · intro blk hblk
      rcases List.mem_cons.mp hblk with h | h
      · subst h
        exact ⟨hslen, hsrows⟩
      · exact hssblk blk h

theorem fetchLoop_succ (sh : Bool) (shuf : List Nat → List Nat) (n : Nat)
    (st : SplitState) :
    fetchLoop sh shuf (n + 1) st
      = if (getNextMinibatchInds sh shuf st).1.2
        then ([(getNextMinibatchInds sh shuf st).1],
              (getNextMinibatchInds sh shuf st).2, true)
        else ((getNextMinibatchInds sh shuf st).1
                :: (fetchLoop sh shuf n (getNextMinibatchInds sh shuf st).2).1,
              (fetchLoop sh shuf n (getNextMinibatchInds sh shuf st).2).2.1,
              (fetchLoop sh shuf n (getNextMinibatchInds sh shuf st).2).2.2) := by
  rcases hg : getNextMinibatchInds sh shuf st with ⟨r, st1⟩
  rcases hf : fetchLoop sh shuf n st1 with ⟨rs, st2, w⟩
  simp [fetchLoop, hg, hf]

theorem fetchLoop_props (sh : Bool) (shuf : List Nat → List Nat) :
    ∀ (n : Nat) (st : SplitState),
      (fetchLoop sh shuf n st).1.length ≤ n
      ∧ (1 ≤ n → 1 ≤ (fetchLoop sh shuf n st).1.length)
      ∧ (∀ e, e + 1 < (fetchLoop sh shuf n st).1.length →
          ((fetchLoop sh shuf n st).1.getD e (0, true)).2 = false)
      ∧ ((fetchLoop sh shuf n st).2.2 = false →
          (fetchLoop sh shuf n st).1.length = n)
      ∧ ((fetchLoop sh shuf n st).2.2 = true →
          1 ≤ (fetchLoop sh shuf n st).1.length
          ∧ ((fetchLoop sh shuf n st).1.getD
              ((fetchLoop sh shuf n st).1.length - 1) (0, false)).2 = true)
      ∧ (st.iterator < st.split_ix.length →
          ∀ p ∈ (fetchLoop sh shuf n st).1, p.1 ∈ st.split_ix) := by
  intro n
  induction n with
  | zero =>
    intro st
    refine ⟨by simp [fetchLoop], by omega, ?_, by simp [fetchLoop], ?_, ?_⟩
    · intro e he
      simp [fetchLoop] at he
    · intro hw
      simp [fetchLoop] at hw
    · intro _ p hp
      simp [fetchLoop] at hp
  | succ n ih =>
    intro st
    have hmem0 : st.iterator < st.split_ix.length →
        st.split_ix.getD st.iterator 0 ∈ st.split_ix := by
      intro hit
      rw [List.getD_eq_getElem?_getD, List.getElem?_eq_getElem hit]
      exact List.getElem_mem hit
    by_cases hc : st.iterator + 1 ≥ st.split_ix.length
    · rw [fetchLoop_succ, getNextMinibatchInds_wrap sh shuf st hc]
      simp only [ite_true, if_pos]
      refine ⟨by simp, by simp, ?_, by simp, by simp, ?_⟩
      · intro e he
        simp at he
      · intro hit p hp
        have hp' := List.mem_singleton.mp hp
        subst hp'
        exact hmem0 hit
    · rw [fetchLoop_succ, getNextMinibatchInds_no_wrap sh shuf st hc]
      simp only [ite_false, if_neg, Bool.false_eq_true, not_false_eq_true]
      obtain ⟨ih1, ih2, ih3, ih4, ih5, ih6⟩ :=
        ih ⟨st.split_ix, st.iterator + 1⟩
      refine ⟨by simpa using ih1, by simp, ?_, ?_, ?_, ?_⟩
      · intro e he
        cases e with
        | zero => rfl
        | succ e =>
          simp only [List.getD_cons_succ]
          exact ih3 e (by simpa using he)
      · intro hw
        simp only [List.length_cons]
        rw [ih4 hw]
      · intro hw
        obtain ⟨hlen1, hlast⟩ := ih5 hw
        refine ⟨by simp, ?_⟩
        simp only [List.length_cons]
        have : (fetchLoop sh shuf n ⟨st.split_ix, st.iterator + 1⟩).1.length - 1 + 1
            = (fetchLoop sh shuf n ⟨st.split_ix, st.iterator + 1⟩).1.length := by
          omega
        rw [Nat.add_sub_cancel, ← this, List.getD_cons_succ]
        exact hlast
      · intro hit p hp
        rcases List.mem_cons.mp hp with h | h
        · subst h
          exact hmem0 hit
        · exact ih6 (by simpa using Nat.lt_of_not_ge (by simpa using hc)) p h

theorem get_batch_core_eq (d : LabelData) (images : List ImageInfo)
    (fc att : Nat → Nat) (sh : Bool) (shuf : List Nat → List Nat)
    (raws : Nat → Nat → Nat) (bs spi : Nat) (st : SplitState)
    (exs : List (Nat × Bool)) (st2 : SplitState) (w : Bool)
    (ss : List (List (List Nat)))
    (hf : fetchLoop sh shuf bs st = (exs, st2, w))
    (hss : getSeqs d spi raws 0 (exs.map Prod.fst) = .ok ss) :
    get_batch_core d images fc att sh shuf raws bs spi st
      = .ok
        ({ fc_feats := (exs.map fun p => List.replicate spi (fc p.1)).flatten
           att_feats := (exs.map fun p => List.replicate spi (att p.1)).flatten
           labels := label_batch_of d.seq_length spi
             (if bs = 0 then 1 else exs.length) ss
           gts := (exs.map Prod.fst).map (gts_for d)
           masks := mask_batch_of d.seq_length
             (label_batch_of d.seq_length spi
               (if bs = 0 then 1 else exs.length) ss)
           it_pos_now := st2.iterator
           it_max := st2.split_ix.length
           wrapped := w
           infos := (exs.map Prod.fst).map (_make_info_dict images) }, st2) := by
  simp only [get_batch_core, hf, hss]
  rfl

/-- C5: `get_batch` issues at most `batch_size` `Prefetcher.get()` calls
and stops at the first wrapped example: all fetched examples but the last
carry a false wrap flag, a wrap-free run fetches exactly `batch_size`
examples, the returned batch holds exactly the fetched examples (infos in
fetch order, `seq_per_img` feature rows per fetched example), the wrap is
reported as `bounds.wrapped` on a normally returned batch (not an error),
and bounds also carries the split's current cursor and size. -/
theorem get_batch_wrap_contract (d : LabelData) (images : List ImageInfo)
    (fc att : Nat → Nat) (sh : Bool) (shuf : List Nat → List Nat)
    (raws : Nat → Nat → Nat) (bs spi : Nat) (st : SplitState)
    (hwf : WFLabels d) (hcur : st.iterator < st.split_ix.length)
    (hval : ∀ ix ∈ st.split_ix, ValidCap d ix) :
    ∃ b, get_batch_core d images fc att sh shuf raws bs spi st
        = .ok (b, (fetchLoop sh shuf bs st).2.1)
      ∧ (fetchLoop sh shuf bs st).1.length ≤ bs
      ∧ (1 ≤ bs → 1 ≤ (fetchLoop sh shuf bs st).1.length)
      ∧ (∀ e, e + 1 < (fetchLoop sh shuf bs st).1.length →
          ((fetchLoop sh shuf bs st).1.getD e (0, true)).2 = false)
      ∧ (b.wrapped = false → (fetchLoop sh shuf bs st).1.length = bs)
      ∧ (b.wrapped = true →
          ((fetchLoop sh shuf bs st).1.getD
            ((fetchLoop sh shuf bs st).1.length - 1) (0, false)).2 = true)
      ∧ b.infos = ((fetchLoop sh shuf bs st).1.map Prod.fst).map
          (_make_info_dict images)
      ∧ b.infos.length = (fetchLoop sh shuf bs st).1.length
      ∧ b.fc_feats.length = (fetchLoop sh shuf bs st).1.length * spi
      ∧ b.wrapped = (fetchLoop sh shuf bs st).2.2
      ∧ b.it_pos_now = (fetchLoop sh shuf bs st).2.1.iterator
      ∧ b.it_max = (fetchLoop sh shuf bs st).2.1.split_ix.length
      ∧ (1 ≤ bs →
          b.labels.length = (fetchLoop sh shuf bs st).1.length * spi) := by
  obtain ⟨h1, h2, h3, h4, h5, h6⟩ := fetchLoop_props sh shuf bs st
  obtain ⟨ss, hss, _, _⟩ := getSeqs_ok d spi raws hwf
    ((fetchLoop sh shuf bs st).1.map Prod.fst) 0
    (by
      intro ix hix
      obtain ⟨p, hp, rfl⟩ := List.mem_map.mp hix
      exact hval p.1 (h6 hcur p hp))
  rcases hf : fetchLoop sh shuf bs st with ⟨exs, st2, w⟩
  rw [hf] at hss h1 h2 h3 h4 h5
  refine ⟨_, get_batch_core_eq d images fc att sh shuf raws bs spi st
    exs st2 w ss hf hss, h1, h2, h3, ?_, ?_, rfl, by simp, ?_, rfl, rfl, rfl, ?_⟩
  · intro hw
    exact h4 hw
  · intro hw
    exact (h5 hw).2
  · have hcomp : (List.length ∘ fun p : Nat × Bool => List.replicate spi (fc p.1))
        = fun _ => spi := by
      funext p
      simp
    simp [List.length_flatten, List.map_map, hcomp, List.map_const']
  · intro hbs
    have hbz : ¬ (bs = 0) := by omega
    simp [label_batch_of, hbz]

theorem get_batch_wrap_contract_witness :
    WFLabels dW
    ∧ ((⟨[0], 0⟩ : SplitState).iterator < (⟨[0], 0⟩ : SplitState).split_ix.length)
    ∧ (∀ ix ∈ (⟨[0], 0⟩ : SplitState).split_ix, ValidCap dW ix)
    ∧ ∃ b, get_batch_core dW imagesW (fun _ => 0) (fun _ => 0) false id
          (fun _ _ => 0) 1 2 ⟨[0], 0⟩
        = .ok (b, (fetchLoop false id 1 ⟨[0], 0⟩).2.1)
      ∧ (fetchLoop false id 1 ⟨[0], 0⟩).1.length ≤ 1
      ∧ (1 ≤ 1 → 1 ≤ (fetchLoop false id 1 ⟨[0], 0⟩).1.length)
      ∧ (∀ e, e + 1 < (fetchLoop false id 1 ⟨[0], 0⟩).1.length →
          ((fetchLoop false id 1 ⟨[0], 0⟩).1.getD e (0, true)).2 = false)
      ∧ (b.wrapped = false → (fetchLoop false id 1 ⟨[0], 0⟩).1.length = 1)
      ∧ (b.wrapped = true →
          ((fetchLoop false id 1 ⟨[0], 0⟩).1.getD
            ((fetchLoop false id 1 ⟨[0], 0⟩).1.length - 1) (0, false)).2 = true)
      ∧ b.infos = ((fetchLoop false id 1 ⟨[0], 0⟩).1.map Prod.fst).map
          (_make_info_dict imagesW)
      ∧ b.infos.length = (fetchLoop false id 1 ⟨[0], 0⟩).1.length
      ∧ b.fc_feats.length = (fetchLoop false id 1 ⟨[0], 0⟩).1.length * 2
      ∧ b.wrapped = (fetchLoop false id 1 ⟨[0], 0⟩).2.2
      ∧ b.it_pos_now = (fetchLoop false id 1 ⟨[0], 0⟩).2.1.iterator
      ∧ b.it_max = (fetchLoop false id 1 ⟨[0], 0⟩).2.1.split_ix.length
      ∧ (1 ≤ 1 →
          b.labels.length = (fetchLoop false id 1 ⟨[0], 0⟩).1.length * 2) :=
  ⟨by decide, by decide, by decide,
   get_batch_wrap_contract dW imagesW (fun _ => 0) (fun _ => 0) false id
     (fun _ _ => 0) 1 2 ⟨[0], 0⟩ (by decide) (by decide) (by decide)⟩

theorem padTo_length (L : Nat) (xs : List Nat) : (padTo L xs).length = L := by
  simp [padTo]
  omega

theorem countNZ_le_length (row : List Nat) : countNZ row ≤ row.length :=
  List.length_filter_le _ _

theorem countNZ_tmp_label_row (L spi : Nat) (ss : List (List (List Nat)))
    (r : Nat) : countNZ (tmp_label_row L spi ss r) ≤ L := by
  unfold tmp_label_row countNZ
  rw [List.filter_append, List.filter_cons]
  simp only [List.length_append, List.filter_cons, List.filter_nil,
    bne_self_eq_false, Bool.false_eq_true, ite_false, List.length_nil,
    if_neg, Nat.add_zero, not_false_eq_true]
  exact le_trans (List.length_filter_le _ _) (le_of_eq (padTo_length _ _))

theorem countNZ_replicate_zero (n : Nat) : countNZ (List.replicate n 0) = 0 := by
  unfold countNZ
  rw [List.filter_eq_nil_iff.mpr]
  · rfl
  · intro a ha
    rw [List.eq_of_mem_replicate ha]
    simp

theorem range_mask_eq (W n : Nat) (h : n ≤ W) :
    ((List.range W).map fun j => if j < n then (1 : Nat) else 0)
      = List.replicate n 1 ++ List.replicate (W - n) 0 := by
  apply List.ext_getElem
  · simp
    omega
  · intro i h1 h2
    simp only [List.getElem_map, List.getElem_range]
    by_cases hi : i < n
    · rw [List.getElem_append_left (by simpa using hi)]
      simp [hi]
    · rw [List.getElem_append_right (by simpa using hi)]
      simp [hi]

theorem getD_map_lt {α β : Type} (f : α → β) (l : List α) (i : Nat)
    (hi : i < l.length) (d0 : β) (d1 : α) :
    (l.map f).getD i d0 = f (l.getD i d1) := by
  rw [List.getD_eq_getElem?_getD, List.getElem?_map,
    List.getElem?_eq_getElem hi, List.getD_eq_getElem?_getD,
    List.getElem?_eq_getElem hi]
  rfl

theorem label_batch_of_count (L spi a : Nat) (ss : List (List (List Nat))) :
    ∀ i, i < (label_batch_of L spi a ss).length →
      countNZ ((label_batch_of L spi a ss).getD i []) ≤ L := by
  intro i hi
  unfold label_batch_of at hi ⊢
  simp only [List.length_map, List.length_range] at hi
  rw [getD_map_range _ _ _ _ hi]
  by_cases hc : i < a
  · rw [if_pos hc]
    exact countNZ_tmp_label_row L spi ss i
  · rw [if_neg hc, countNZ_replicate_zero]
    omega

theorem mask_batch_rows_spec (L : Nat) (lb : List (List Nat))
    (hcount : ∀ i, i < lb.length → countNZ (lb.getD i []) ≤ L) :
    ∀ i, i < (mask_batch_of L lb).length →
      countNZ (lb.getD i []) + 2 ≤ L + 2
      ∧ (mask_batch_of L lb).getD i []
        = List.replicate (countNZ (lb.getD i []) + 2) 1
          ++ List.replicate ((L + 2) - (countNZ (lb.getD i []) + 2)) 0 := by
  intro i hi
  unfold mask_batch_of at hi ⊢
  simp only [List.length_map] at hi
  have hb : countNZ (lb.getD i []) + 2 ≤ L + 2 := by
    have := hcount i hi
    omega
  refine ⟨hb, ?_⟩
  rw [getD_map_lt _ _ i hi [] []]
  exact range_mask_eq _ _ hb

/-- C3: in every batch returned by `get_batch`, mask row `i` consists of
exactly `(number of nonzero entries of label row i) + 2` leading ones
followed by zeros — covering every label row, including rows with 0, 1 or
`seq_length` nonzero tokens, since the count plus 2 never exceeds the row
width `seq_length + 2`. -/
theorem mask_rows_spec (d : LabelData) (images : List ImageInfo)
    (fc att : Nat → Nat) (sh : Bool) (shuf : List Nat → List Nat)
    (raws : Nat → Nat → Nat) (bs spi : Nat) (st : SplitState)
    (hwf : WFLabels d) (hcur : st.iterator < st.split_ix.length)
    (hval : ∀ ix ∈ st.split_ix, ValidCap d ix) :
    ∃ b st2, get_batch_core d images fc att sh shuf raws bs spi st
        = .ok (b, st2)
      ∧ b.masks.length = b.labels.length
      ∧ ∀ i, i < b.masks.length →
          countNZ (b.labels.getD i []) + 2 ≤ d.seq_length + 2
          ∧ b.masks.getD i []
            = List.replicate (countNZ (b.labels.getD i []) + 2) 1
              ++ List.replicate
                  ((d.seq_length + 2) - (countNZ (b.labels.getD i []) + 2)) 0 := by
  obtain ⟨_, _, _, _, _, h6⟩ := fetchLoop_props sh shuf bs st
  obtain ⟨ss, hss, _, _⟩ := getSeqs_ok d spi raws hwf
    ((fetchLoop sh shuf bs st).1.map Prod.fst) 0
    (by
      intro ix hix
      obtain ⟨p, hp, rfl⟩ := List.mem_map.mp hix
      exact hval p.1 (h6 hcur p hp))
  rcases hf : fetchLoop sh shuf bs st with ⟨exs, st2, w⟩
  rw [hf] at hss
  refine ⟨_, st2, get_batch_core_eq d images fc att sh shuf raws bs spi st
    exs st2 w ss hf hss, by simp [mask_batch_of], ?_⟩
  exact mask_batch_rows_spec d.seq_length
    (label_batch_of d.seq_length spi (if bs = 0 then 1 else exs.length) ss)
    (label_batch_of_count d.seq_length spi (if bs = 0 then 1 else exs.length) ss)

/-- C1 is violated by the code: with `batch_size = 1`, `seq_per_img = 2`
on an image whose two captions are `[7,8]` and `[9,10]`, the sampled block
is `[[7,8],[9,10]]` and row 1 of the claimed label matrix (example 0, row
q = 1) would be `[0,9,10,0]`; but the copy loop at dataloader.py line 213
runs over `range(actual_batch_size)` = `range(1)` instead of
`range(actual_batch_size * seq_per_img)`, so returned label row 1 is the
untouched zero row `[0,0,0,0]`. -/
theorem get_batch_label_copy_bug :
    getSeqs dC1 2 (fun _ _ => 0) 0 [0] = .ok [[[7, 8], [9, 10]]]
    ∧ tmp_label_row 2 2 [[[7, 8], [9, 10]]] 1 = [0, 9, 10, 0]
    ∧ (∃ b, get_batch_core dC1 imagesC1 (fun _ => 0) (fun _ => 0) false id
          (fun _ _ => 0) 1 2 ⟨[0], 0⟩ = .ok (b, ⟨[0], 0⟩)
        ∧ b.labels = [[0, 7, 8, 0], [0, 0, 0, 0]]
        ∧ b.labels.getD 1 [] ≠ [0, 9, 10, 0]) := by
  refine ⟨rfl, rfl, ⟨_, rfl, rfl, by decide⟩⟩

theorem mask_rows_spec_witness :
    WFLabels dW
    ∧ ((⟨[0], 0⟩ : SplitState).iterator < (⟨[0], 0⟩ : SplitState).split_ix.length)
    ∧ (∀ ix ∈ (⟨[0], 0⟩ : SplitState).split_ix, ValidCap dW ix)
    ∧ ∃ b st2, get_batch_core dW imagesW (fun _ => 0) (fun _ => 0) false id
          (fun _ _ => 0) 1 2 ⟨[0], 0⟩ = .ok (b, st2)
        ∧ b.masks.length = b.labels.length
        ∧ ∀ i, i < b.masks.length →
            countNZ (b.labels.getD i []) + 2 ≤ dW.seq_length + 2
            ∧ b.masks.getD i []
              = List.replicate (countNZ (b.labels.getD i []) + 2) 1
                ++ List.replicate
                    ((dW.seq_length + 2) - (countNZ (b.labels.getD i []) + 2)) 0 :=
  ⟨by decide, by decide, by decide,
   mask_rows_spec dW imagesW (fun _ => 0) (fun _ => 0) false id
     (fun _ _ => 0) 1 2 ⟨[0], 0⟩ (by decide) (by decide) (by decide)⟩

end DataLoaderModel
